import Mathlib

/-!
Shallow embedding of `src/spend.py` (class `SpendingCalculator`), a console
expense tracker.  Python floats (money amounts) are modelled as `ℚ`;
`datetime.datetime` values as a six-field record of naturals compared
lexicographically (Python datetimes compare field-by-field); Python dicts
(insertion-ordered, unique keys) as association lists with in-place update.
Console I/O is modelled by passing the validated user inputs as arguments and
re-prompt loops by guards under which no mutation happens; the persistence
file is modelled as an `Option SavedData` value.
-/

namespace Spend

/-- Model of `datetime.datetime` (microseconds omitted; every value the
program builds has microsecond semantics that no compared claim depends on). -/
structure DT where
  year : Nat
  month : Nat
  day : Nat
  hour : Nat
  minute : Nat
  second : Nat
deriving DecidableEq

/-- Python datetime comparison: lexicographic on the fields. -/
def dtLe (a b : DT) : Bool :=
  if a.year ≠ b.year then decide (a.year < b.year)
  else if a.month ≠ b.month then decide (a.month < b.month)
  else if a.day ≠ b.day then decide (a.day < b.day)
  else if a.hour ≠ b.hour then decide (a.hour < b.hour)
  else if a.minute ≠ b.minute then decide (a.minute < b.minute)
  else decide (a.second ≤ b.second)

/-- Days since 0000-03-01 for a proleptic Gregorian date with `year ≥ 1`
(the civil-from-days algorithm behind the Python function `datetime.toordinal`,
shifted so all arithmetic stays in `Nat`). -/
def daysN (y m d : Nat) : Nat :=
  let y2 := if m ≤ 2 then y - 1 else y
  let era := y2 / 400
  let yoe := y2 % 400
  let mp := if m > 2 then m - 3 else m + 9
  let doy := (153 * mp + 2) / 5 + d - 1
  let doe := yoe * 365 + yoe / 4 - yoe / 100 + doy
  era * 146097 + doe

/-- Inverse of `daysN`: the civil date of a day number. -/
def civilFromDaysN (z : Nat) : Nat × Nat × Nat :=
  let era := z / 146097
  let doe := z % 146097
  let yoe := (doe - doe / 1460 + doe / 36524 - doe / 146096) / 365
  let y2 := yoe + era * 400
  let doy := doe - (365 * yoe + yoe / 4 - yoe / 100)
  let mp := (5 * doy + 2) / 153
  let d := doy - (153 * mp + 2) / 5 + 1
  let m := if mp < 10 then mp + 3 else mp - 9
  (if m ≤ 2 then y2 + 1 else y2, m, d)

/-- `datetime.weekday()`: Monday = 0 … Sunday = 6.  `daysN 1970 1 5 = 719472`
is a Monday and `719472 + 2` is divisible by 7. -/
def pyWeekday (t : DT) : Nat := (daysN t.year t.month t.day + 2) % 7

/-- `t - datetime.timedelta(days := k)`: the time of day is kept. -/
def dateMinusDays (t : DT) (k : Nat) : DT :=
  let c := civilFromDaysN (daysN t.year t.month t.day - k)
  { t with year := c.1, month := c.2.1, day := c.2.2 }

/-- Python `str.lower()` on one ASCII character. -/
def lowerChar (c : Char) : Char :=
  if 65 ≤ c.toNat ∧ c.toNat ≤ 90 then Char.ofNat (c.toNat + 32) else c

/-- Python `str.lower()` (the strings the program lowercases are ASCII). -/
def lowerStr (s : String) : String := ⟨s.data.map lowerChar⟩

/-- An element of `self.expenses`: the tuple `(date, category, amount)`. -/
structure Expense where
  date : DT
  category : String
  amount : ℚ
deriving DecidableEq

/-- An element of `self.transaction_history`: the tuple
`(kind, date, category, amount)` with kind `"Expense"` or `"Deposit"`. -/
structure Transaction where
  kind : String
  date : DT
  category : String
  amount : ℚ
deriving DecidableEq

/-- Python `dict.get(k, v0)` on an association list. -/
def dictGetD (d : List (String × ℚ)) (k : String) (v0 : ℚ) : ℚ :=
  match d with
  | [] => v0
  | p :: rest => if p.1 = k then p.2 else dictGetD rest k v0

/-- Python `dict.get(k, None)` / the `k in dict` test, as an `Option`. -/
def dictLookup (d : List (String × ℚ)) (k : String) : Option ℚ :=
  match d with
  | [] => none
  | p :: rest => if p.1 = k then some p.2 else dictLookup rest k

/-- Python `dict[k] = v`: update in place if the key exists, else append
(dicts preserve insertion order). -/
def dictSet (d : List (String × ℚ)) (k : String) (v : ℚ) : List (String × ℚ) :=
  match d with
  | [] => [(k, v)]
  | p :: rest => if p.1 = k then (k, v) :: rest else p :: dictSet rest k v

/-- Python `del dict[k]` (keys are unique, so removing the first match). -/
def dictRemove (d : List (String × ℚ)) (k : String) : List (String × ℚ) :=
  match d with
  | [] => []
  | p :: rest => if p.1 = k then rest else p :: dictRemove rest k

/-- `k in dict`. -/
def dictContains (d : List (String × ℚ)) (k : String) : Bool :=
  (dictLookup d k).isSome

/-- The keys of a dict, in order. -/
def dictKeys (d : List (String × ℚ)) : List String :=
  d.map Prod.fst

/-- The mutable attributes of `SpendingCalculator` (the constants
`history_length`, `data_file` and `budget_intervals` are fixed by
`__init__` and never reassigned; `history_length` is kept as a field
because the trimming code reads it). -/
structure State where
  expenses : List Expense
  categories : List String
  balance : ℚ
  transaction_history : List Transaction
  history_length : Nat
  budget : ℚ
  budget_interval : String
  category_budgets : List (String × ℚ)
deriving DecidableEq

/-- The category list seeded in `__init__`. -/
def default_categories : List String :=
  ["Food", "Housing", "Transportation", "Entertainment", "Utilities", "Other"]

/-- `self.budget_intervals`. -/
def budget_intervals : List String := ["Day", "Week", "Bi-Weekly", "Month", "Year"]

/-- The field values assigned in `__init__` before `load_data` runs. -/
def default_state : State :=
  { expenses := []
    categories := default_categories
    balance := 0
    transaction_history := []
    history_length := 5
    budget := 0
    budget_interval := "Month"
    category_budgets := [] }

/-- The pickled dict written by `save_data`; `load_data` reads each key with
`dict.get` and a default, so the fields are `Option`-valued. -/
structure SavedData where
  expenses : Option (List Expense)
  categories : Option (List String)
  balance : Option ℚ
  transaction_history : Option (List Transaction)
  budget : Option ℚ
  budget_interval : Option String
  category_budgets : Option (List (String × ℚ))
deriving DecidableEq

/-- `save_data`: serialize the seven persisted fields. -/
def save_data (s : State) : SavedData :=
  { expenses := some s.expenses
    categories := some s.categories
    balance := some s.balance
    transaction_history := some s.transaction_history
    budget := some s.budget
    budget_interval := some s.budget_interval
    category_budgets := some s.category_budgets }

/-- `load_data`: `none` models a missing (or unreadable) file, in which case
the state is left as it is; otherwise each field is read with its default. -/
def load_data (s : State) (file : Option SavedData) : State :=
  match file with
  | none => s
  | some d =>
    { s with
      expenses := d.expenses.getD []
      categories := d.categories.getD default_categories
      balance := d.balance.getD 0
      transaction_history := d.transaction_history.getD []
      budget := d.budget.getD 0
      budget_interval := d.budget_interval.getD "Month"
      category_budgets := d.category_budgets.getD [] }

/-- `initialize_category_budgets`: seed a 0 budget for every category that
has none. -/
def initialize_category_budgets (s : State) : State :=
  { s with
    category_budgets :=
      s.categories.foldl (fun d c => if dictContains d c then d else dictSet d c 0)
        s.category_budgets }

/-- The state after `__init__` when no data file exists. -/
def initial_state : State := initialize_category_budgets (load_data default_state none)

/-- The history append-and-trim idiom repeated in `add_expense` and
`add_money`: append, then `pop(0)` once if the length now exceeds
`history_length`. -/
def pushTransaction (hl : Nat) (h : List Transaction) (t : Transaction) : List Transaction :=
  let h2 := h ++ [t]
  if h2.length > hl then h2.tail else h2

/-- The mutation performed by `add_expense` once amount, category and date
have passed their validation loops (`amount > 0`, `category` chosen from
`self.categories`). -/
def add_expense (s : State) (date : DT) (category : String) (amount : ℚ) : State :=
  { s with
    expenses := s.expenses ++ [⟨date, category, amount⟩]
    balance := s.balance - amount
    transaction_history :=
      pushTransaction s.history_length s.transaction_history ⟨"Expense", date, category, amount⟩ }

/-- `add_money` once the amount has passed validation (`amount > 0`);
`now` is the `datetime.datetime.now()` timestamp it logs. -/
def add_money (s : State) (now : DT) (amount : ℚ) : State :=
  { s with
    balance := s.balance + amount
    transaction_history :=
      pushTransaction s.history_length s.transaction_history ⟨"Deposit", now, "Deposit", amount⟩ }

/-- `add_category` once the name has passed validation (non-empty, not a
duplicate): append the category and seed its budget with 0. -/
def add_category (s : State) (name : String) : State :=
  { s with
    categories := s.categories ++ [name]
    category_budgets := dictSet s.category_budgets name 0 }

/-- `delete_category` once the name has passed validation (non-empty and
present): `list.remove` drops the first occurrence, and the budget entry is
deleted when present (`dictRemove` of an absent key is the identity). -/
def delete_category (s : State) (name : String) : State :=
  { s with
    categories := s.categories.erase name
    category_budgets := dictRemove s.category_budgets name }

/-- `set_budget` once the amount has passed validation (`budget > 0`). -/
def set_budget (s : State) (b : ℚ) : State := { s with budget := b }

/-- `set_category_budget` once category and amount passed validation. -/
def set_category_budget (s : State) (c : String) (b : ℚ) : State :=
  { s with category_budgets := dictSet s.category_budgets c b }

/-- `set_budget_interval` once the (already `.title()`-cased) input passed
the membership check against `budget_intervals`. -/
def set_budget_interval (s : State) (i : String) : State := { s with budget_interval := i }

/-- `clear_all_data`, driven by the list of confirmation inputs the loop
reads: `yes` (case-insensitively) resets expenses, balance, history, budget
and category budgets and immediately saves; `no` leaves everything alone;
anything else re-prompts; end of input leaves everything alone with no save.
The second component is the file write performed, if any. -/
def clear_all_data (confs : List String) (s : State) : State × Option SavedData :=
  match confs with
  | [] => (s, none)
  | conf :: rest =>
    if lowerStr conf = "yes" then
      let s2 := { s with
                  expenses := []
                  balance := 0
                  transaction_history := []
                  budget := 0
                  category_budgets := [] }
      (s2, some (save_data s2))
    else if lowerStr conf = "no" then (s, none)
    else clear_all_data rest s

/-- `sorted(self.expenses, key := lambda x: x[0])`: stable sort by date. -/
def sortExpenses (es : List Expense) : List Expense :=
  es.mergeSort (fun a b => dtLe a.date b.date)

/-- The report printed by `update_summary`: the expenses in date order, the
per-category totals dict (in first-appearance order) and the grand total. -/
structure SummaryReport where
  lines : List Expense
  categoryTotals : List (String × ℚ)
  total : ℚ
deriving DecidableEq

/-- The per-category accumulation idiom shared by `update_summary`,
`display_status` and `budget_menu`:
`totals[category] = totals.get(category, 0) + amount`. -/
def catStep (d : List (String × ℚ)) (e : Expense) : List (String × ℚ) :=
  dictSet d e.category (dictGetD d e.category 0 + e.amount)

/-- One step of the `update_summary` loop body on its two accumulators:
`total_spending += amount` and
`category_totals[category] = category_totals.get(category, 0) + amount`. -/
def summaryStep (acc : ℚ × List (String × ℚ)) (e : Expense) : ℚ × List (String × ℚ) :=
  (acc.1 + e.amount, catStep acc.2 e)

/-- `update_summary`: prints nothing and returns early when there are no
expenses (`none`); otherwise folds the loop body over the date-sorted list. -/
def update_summary (es : List Expense) : Option SummaryReport :=
  if es.isEmpty then none
  else
    let sorted := sortExpenses es
    let acc := sorted.foldl summaryStep (0, [])
    some ⟨sorted, acc.2, acc.1⟩

/-- Leap year per the Gregorian rule (what `datetime` validates against). -/
def isLeap (y : Nat) : Bool := decide ((y % 4 = 0 ∧ y % 100 ≠ 0) ∨ y % 400 = 0)

/-- Days in a month, for date validation. -/
def daysInMonth (y m : Nat) : Nat :=
  if m = 2 then (if isLeap y then 29 else 28)
  else if m ∈ [4, 6, 9, 11] then 30 else 31

/-- `datetime.datetime.strptime(s, "%Y-%m-%d")`: three dash-separated digit
groups (1-4 digits of year, 1-2 of month and day), validated as a real
calendar date; the time fields are zero.  Failure models `ValueError`. -/
def strptimeYMD (str : String) : Option DT :=
  match str.splitOn "-" with
  | [ys, ms, ds] =>
    match ys.toNat?, ms.toNat?, ds.toNat? with
    | some y, some m, some d =>
      if ys.length ≤ 4 ∧ ms.length ≤ 2 ∧ ds.length ≤ 2 ∧
         1 ≤ y ∧ y ≤ 9999 ∧ 1 ≤ m ∧ m ≤ 12 ∧ 1 ≤ d ∧ d ≤ daysInMonth y m
      then some ⟨y, m, d, 0, 0, 0⟩ else none
    | _, _, _ => none
  | _ => none

/-- The date-prompt loop of `add_expense` over the queue of raw inputs:
an empty string short-circuits to `datetime.datetime.now()`, a parseable
date is taken, a malformed one re-prompts, end of input aborts (`none`). -/
def dateLoop (now : DT) (inputs : List String) : Option DT :=
  match inputs with
  | [] => none
  | str :: rest =>
    if str = "" then some now
    else
      match strptimeYMD str with
      | some d => some d
      | none => dateLoop now rest

/-- `add_expense` from the date prompt onward (amount and category already
validated): abort without mutation if the date loop aborts, else record. -/
def add_expense_from_date_prompt (s : State) (now : DT) (category : String) (amount : ℚ)
    (dateInputs : List String) : State :=
  match dateLoop now dateInputs with
  | none => s
  | some d => add_expense s d category amount

/-- `sum(expense[2] for expense in self.expenses if lo <= expense[0] <= hi)`. -/
def windowSum (lo hi : DT) (es : List Expense) : ℚ :=
  ((es.filter (fun e => dtLe lo e.date && dtLe e.date hi)).map Expense.amount).sum

/-- `now.replace(day := 1)`: note the time of day is NOT reset. -/
def month_start (now : DT) : DT := { now with day := 1 }

/-- `now.replace(month := 1, day := 1)`: the time of day is NOT reset. -/
def year_start (now : DT) : DT := { now with month := 1, day := 1 }

/-- `now.replace(hour := 0, minute := 0, second := 0, microsecond := 0)`. -/
def day_start (now : DT) : DT := { now with hour := 0, minute := 0, second := 0 }

/-- `(now - datetime.timedelta(days := now.weekday())).replace(hour := 0, ...)`. -/
def week_start (now : DT) : DT := day_start (dateMinusDays now (pyWeekday now))

/-- The number of days of `(now - datetime.datetime(1970, 1, 5))`
(`datetime.timedelta` stores a floor, so this is exact even before 1970). -/
def daysSinceRefMonday (now : DT) : Int :=
  (daysN now.year now.month now.day : Int) - 719472

/-- The bi-weekly window start of `display_status`: Python `//` and `%` are
floor division and floor modulus, which for the positive divisors used here
coincide with the Lean `Int` operators `/` and `%`. -/
def biweekly_start (now : DT) : DT :=
  let days_since_monday := pyWeekday now
  let weeks_since_start : Int := daysSinceRefMonday now / 7
  let days_since_monday2 :=
    if weeks_since_start % 2 ≠ 0 then days_since_monday + 7 else days_since_monday
  day_start (dateMinusDays now days_since_monday2)

/-- The spend-to-date figure `display_status` computes: `none` when no line
is printed (budget not positive, or an interval string outside the known
five, which `set_budget_interval` never produces). -/
def intervalSpend (s : State) (now : DT) : Option ℚ :=
  if 0 < s.budget then
    let il := lowerStr s.budget_interval
    if il = "month" then some (windowSum (month_start now) now s.expenses)
    else if il = "year" then some (windowSum (year_start now) now s.expenses)
    else if il = "day" then some (windowSum (day_start now) now s.expenses)
    else if il = "week" then some (windowSum (week_start now) now s.expenses)
    else if il = "bi-weekly" then some (windowSum (biweekly_start now) now s.expenses)
    else none
  else none

/-- The pair of figures the budget section of `display_status` prints:
spend-to-date and `remaining = budget - spend`. -/
def display_budget_section (s : State) (now : DT) : Option (ℚ × ℚ) :=
  (intervalSpend s now).map (fun e => (e, s.budget - e))

/-- The `category_expenses` dict built by `display_status` (and
`budget_menu`): per-category sums over ALL expenses, orphaned categories
included. -/
def category_expenses (es : List Expense) : List (String × ℚ) :=
  es.foldl catStep []

/-- The per-category lines of `display_status`:
`(category, budget, spent, remaining)` for each entry of
`category_budgets`, reading spends with `dict.get(category, 0)`. -/
def statusCategoryLines (s : State) : List (String × ℚ × ℚ × ℚ) :=
  let ce := category_expenses s.expenses
  s.category_budgets.map (fun p => (p.1, p.2, dictGetD ce p.1 0, p.2 - dictGetD ce p.1 0))

/-- A user-level operation with its (already read) console inputs. -/
inductive Op where
  | addExpense (date : DT) (category : String) (amount : ℚ)
  | addMoney (now : DT) (amount : ℚ)
  | addCategory (name : String)
  | deleteCategory (name : String)
  | setBudget (amount : ℚ)
  | setCategoryBudget (category : String) (amount : ℚ)
  | setBudgetInterval (interval : String)
  | clearAllData (confirmation : String)

/-- The state transition of one operation.  Each guard is the validation
its input loop enforces before the mutation runs; inputs that fail
validation (or abort) leave the state unchanged. -/
def step (o : Op) (s : State) : State :=
  match o with
  | .addExpense d c a => if 0 < a ∧ c ∈ s.categories then add_expense s d c a else s
  | .addMoney now a => if 0 < a then add_money s now a else s
  | .addCategory n => if n ≠ "" ∧ n ∉ s.categories then add_category s n else s
  | .deleteCategory n => if n ≠ "" ∧ n ∈ s.categories then delete_category s n else s
  | .setBudget b => if 0 < b then set_budget s b else s
  | .setCategoryBudget c b => if c ∈ s.categories ∧ 0 < b then set_category_budget s c b else s
  | .setBudgetInterval i => if i ∈ budget_intervals then set_budget_interval s i else s
  | .clearAllData conf => (clear_all_data [conf] s).1

/-- The state after a sequence of operations from the default initial state. -/
def reach (ops : List Op) : State := ops.foldl (fun s o => step o s) initial_state

/-- Modelled from the wording of the spec for claim C5: the interval start as the
claim states it, "the start of the current day, week, bi-weekly period
anchored to a fixed reference Monday, month, or year" — all at midnight. -/
def claimIntervalStart (interval : String) (now : DT) : DT :=
  if interval = "Day" then ⟨now.year, now.month, now.day, 0, 0, 0⟩
  else if interval = "Week" then day_start (dateMinusDays now (pyWeekday now))
  else if interval = "Bi-Weekly" then
    day_start (dateMinusDays now ((daysN now.year now.month now.day + 2) % 14))
  else if interval = "Month" then ⟨now.year, now.month, 1, 0, 0, 0⟩
  else if interval = "Year" then ⟨now.year, 1, 1, 0, 0, 0⟩
  else now

/-- The amended interval start: as the claim states it for Day, Week and
Bi-Weekly, but for Month and Year the first day of the month resp. year at
the time of day of `now` itself (what `datetime.replace` leaves behind). -/
def amendedIntervalStart (interval : String) (now : DT) : DT :=
  if interval = "Day" then ⟨now.year, now.month, now.day, 0, 0, 0⟩
  else if interval = "Week" then day_start (dateMinusDays now (pyWeekday now))
  else if interval = "Bi-Weekly" then
    day_start (dateMinusDays now ((daysN now.year now.month now.day + 2) % 14))
  else if interval = "Month" then ⟨now.year, now.month, 1, now.hour, now.minute, now.second⟩
  else if interval = "Year" then ⟨now.year, 1, 1, now.hour, now.minute, now.second⟩
  else now

/-- The inductive invariant for C3: the history bound is the constant 5 and
the history never exceeds it. -/
def histInv (s : State) : Prop :=
  s.history_length = 5 ∧ s.transaction_history.length ≤ 5

/-- The inductive invariant for C9: the budget dict has no duplicate keys
and every key is a known category. -/
def budgetKeysInv (s : State) : Prop :=
  (dictKeys s.category_budgets).Nodup ∧
  ∀ k ∈ dictKeys s.category_budgets, k ∈ s.categories

/-- Concrete operation sequence used by the C3 witness: five deposits. -/
def opsW5 : List Op := List.replicate 5 (Op.addMoney ⟨2024, 1, 1, 0, 0, 0⟩ 1)

/-- Concrete transaction used by the C3 witness. -/
def tW : Transaction := ⟨"Expense", ⟨2024, 1, 2, 0, 0, 0⟩, "Food", 2⟩

/-- Concrete expense list used by the C4 witness (the scenario given in the spec). -/
def esW : List Expense :=
  [⟨⟨2024, 1, 10, 0, 0, 0⟩, "Food", 50⟩, ⟨⟨2024, 1, 15, 0, 0, 0⟩, "Transportation", 30⟩]

/-- Concrete state used by the C8 witness: two recorded expenses and seeded
budgets; the category `"Food"` (referenced by an expense) gets deleted. -/
def sW8 : State :=
  { expenses := esW
    categories := default_categories
    balance := -80
    transaction_history := []
    history_length := 5
    budget := 0
    budget_interval := "Month"
    category_budgets := [("Food", 10), ("Housing", 0)] }

/-- A concrete state for C5: budget 100, interval Month, one $40 expense
dated the first of the month at midnight (as `strptime` produces). -/
def sCex : State :=
  { expenses := [⟨⟨2024, 5, 1, 0, 0, 0⟩, "Food", 40⟩]
    categories := default_categories
    balance := -40
    transaction_history := []
    history_length := 5
    budget := 100
    budget_interval := "Month"
    category_budgets := [] }

/-- A concrete clock time for C5: mid-month, midday. -/
def nowCex : DT := ⟨2024, 5, 15, 12, 0, 0⟩

/-- The C5 witness state for the scenario half: one $40 expense inside the
month window. -/
def sW5 : State := { sCex with expenses := [⟨⟨2024, 5, 10, 0, 0, 0⟩, "Food", 40⟩] }

/-- The date of the C5 witness expense. -/
def dW5 : DT := ⟨2024, 5, 10, 0, 0, 0⟩

lemma tail_append_singleton {α : Type} (h : List α) (t : α) (hne : h ≠ []) :
    (h ++ [t]).tail = h.tail ++ [t] := by
  cases h with
  | nil => exact absurd rfl hne
  | cons a l => simp

lemma pushTransaction_getLast (hl : Nat) (h : List Transaction) (t : Transaction)
    (hhl : 0 < hl) : (pushTransaction hl h t).getLast? = some t := by
  by_cases hgt : (h ++ [t]).length > hl
  · have hne : h ≠ [] := by
      intro hnil
      subst hnil
      simp at hgt
      omega
    simp only [pushTransaction, if_pos hgt]
    rw [tail_append_singleton h t hne]
    exact List.getLast?_concat _
  · simp only [pushTransaction, if_neg hgt]
    exact List.getLast?_concat _

/-- C1: for a valid input (`amount > 0`, category in the category list, a
well-formed date), `add_expense` appends exactly one `(date, category,
amount)` record to the expense list, decreases the balance by exactly
`amount`, and appends exactly one `"Expense"` transaction to the history
(trimmed by the bounded-history rule); whenever the history bound is
positive the new transaction is the last history entry. -/
theorem add_expense_effects (s : State) (d : DT) (c : String) (a : ℚ)
    (ha : 0 < a) (hc : c ∈ s.categories) :
    (step (.addExpense d c a) s).expenses = s.expenses ++ [⟨d, c, a⟩] ∧
    (step (.addExpense d c a) s).balance = s.balance - a ∧
    (step (.addExpense d c a) s).transaction_history =
      pushTransaction s.history_length s.transaction_history ⟨"Expense", d, c, a⟩ ∧
    (0 < s.history_length →
      (step (.addExpense d c a) s).transaction_history.getLast? =
        some ⟨"Expense", d, c, a⟩) := by
  have hstep : step (.addExpense d c a) s = add_expense s d c a := by
    simp [step, ha, hc]
  rw [hstep]
  refine ⟨rfl, rfl, rfl, fun hl => ?_⟩
  exact pushTransaction_getLast _ _ _ hl

/-- C1 witness: the theorem applied at a concrete state and input. -/
theorem add_expense_effects_witness :
    (step (.addExpense ⟨2024, 1, 10, 0, 0, 0⟩ "Food" 50) initial_state).expenses
        = initial_state.expenses ++ [⟨⟨2024, 1, 10, 0, 0, 0⟩, "Food", 50⟩] ∧
    (step (.addExpense ⟨2024, 1, 10, 0, 0, 0⟩ "Food" 50) initial_state).balance
        = initial_state.balance - 50 ∧
    (step (.addExpense ⟨2024, 1, 10, 0, 0, 0⟩ "Food" 50) initial_state).transaction_history
        = pushTransaction initial_state.history_length initial_state.transaction_history
            ⟨"Expense", ⟨2024, 1, 10, 0, 0, 0⟩, "Food", 50⟩ ∧
    (0 < initial_state.history_length →
      (step (.addExpense ⟨2024, 1, 10, 0, 0, 0⟩ "Food" 50) initial_state).transaction_history.getLast?
        = some ⟨"Expense", ⟨2024, 1, 10, 0, 0, 0⟩, "Food", 50⟩) :=
  add_expense_effects initial_state ⟨2024, 1, 10, 0, 0, 0⟩ "Food" 50 (by decide) (by decide)

/-- C2: saving the seven persisted fields and loading them back (into any
intermediate state) reproduces all seven fields exactly. -/
theorem save_load_roundtrip (s t : State) :
    (load_data t (some (save_data s))).expenses = s.expenses ∧
    (load_data t (some (save_data s))).categories = s.categories ∧
    (load_data t (some (save_data s))).balance = s.balance ∧
    (load_data t (some (save_data s))).transaction_history = s.transaction_history ∧
    (load_data t (some (save_data s))).budget = s.budget ∧
    (load_data t (some (save_data s))).budget_interval = s.budget_interval ∧
    (load_data t (some (save_data s))).category_budgets = s.category_budgets :=
  ⟨rfl, rfl, rfl, rfl, rfl, rfl, rfl⟩

/-- C6: confirming `clear_all_data` with `"yes"` empties the expense list,
zeroes the balance, empties the transaction history, zeroes the budget,
resets the category budgets to the (empty) default mapping, leaves the
category list and interval alone, and immediately persists the cleared
state via `save_data`. -/
theorem clear_all_data_yes (s : State) :
    (clear_all_data ["yes"] s).1.expenses = [] ∧
    (clear_all_data ["yes"] s).1.balance = 0 ∧
    (clear_all_data ["yes"] s).1.transaction_history = [] ∧
    (clear_all_data ["yes"] s).1.budget = 0 ∧
    (clear_all_data ["yes"] s).1.category_budgets = [] ∧
    (clear_all_data ["yes"] s).1.categories = s.categories ∧
    (clear_all_data ["yes"] s).1.budget_interval = s.budget_interval ∧
    (clear_all_data ["yes"] s).2 = some (save_data (clear_all_data ["yes"] s).1) :=
  ⟨rfl, rfl, rfl, rfl, rfl, rfl, rfl, rfl⟩

/-- C7: answering `"no"` leaves the whole state untouched and writes
nothing to the persistence file. -/
theorem clear_all_data_no (s : State) :
    clear_all_data ["no"] s = (s, none) :=
  rfl

/-- C10: an empty string at the date prompt of `add_expense` is not a
validation failure: the loop stops at once, the date defaults to
`datetime.datetime.now()`, and the expense is recorded with that date. -/
theorem add_expense_empty_date_defaults_to_now (s : State) (now : DT) (c : String)
    (a : ℚ) (rest : List String) :
    dateLoop now ("" :: rest) = some now ∧
    (add_expense_from_date_prompt s now c a ("" :: rest)).expenses
      = s.expenses ++ [⟨now, c, a⟩] :=
  ⟨rfl, rfl⟩

lemma pushTransaction_length_le (hl : Nat) (h : List Transaction) (t : Transaction)
    (hle : h.length ≤ hl) : (pushTransaction hl h t).length ≤ hl := by
  simp only [pushTransaction]
  split
  · next hgt => simp only [List.length_tail, List.length_append, List.length_singleton]; omega
  · next hgt => simp only [List.length_append, List.length_singleton] at hgt ⊢; omega

lemma histInv_clear (conf : String) (s : State) (hs : histInv s) :
    histInv (clear_all_data [conf] s).1 := by
  by_cases hy : lowerStr conf = "yes"
  · simp only [clear_all_data, if_pos hy]
    exact ⟨hs.1, by simp⟩
  · by_cases hn : lowerStr conf = "no"
    · simp only [clear_all_data, if_neg hy, if_pos hn]
      exact hs
    · simp only [clear_all_data, if_neg hy, if_neg hn]
      exact hs

lemma histInv_step (o : Op) (s : State) (hs : histInv s) : histInv (step o s) := by
  obtain ⟨h5, hlen⟩ := hs
  cases o with
  | addExpense d c a =>
    by_cases hg : 0 < a ∧ c ∈ s.categories
    · simp only [step, if_pos hg]
      refine ⟨h5, ?_⟩
      have hh : (add_expense s d c a).transaction_history
          = pushTransaction s.history_length s.transaction_history ⟨"Expense", d, c, a⟩ := rfl
      rw [hh, h5]
      exact pushTransaction_length_le 5 _ _ hlen
    · simp only [step, if_neg hg]; exact ⟨h5, hlen⟩
  | addMoney now a =>
    by_cases hg : 0 < a
    · simp only [step, if_pos hg]
      refine ⟨h5, ?_⟩
      have hh : (add_money s now a).transaction_history
          = pushTransaction s.history_length s.transaction_history ⟨"Deposit", now, "Deposit", a⟩ := rfl
      rw [hh, h5]
      exact pushTransaction_length_le 5 _ _ hlen
    · simp only [step, if_neg hg]; exact ⟨h5, hlen⟩
  | addCategory n =>
    by_cases hg : n ≠ "" ∧ n ∉ s.categories
    · simp only [step, if_pos hg]; exact ⟨h5, hlen⟩
    · simp only [step, if_neg hg]; exact ⟨h5, hlen⟩
  | deleteCategory n =>
    by_cases hg : n ≠ "" ∧ n ∈ s.categories
    · simp only [step, if_pos hg]; exact ⟨h5, hlen⟩
    · simp only [step, if_neg hg]; exact ⟨h5, hlen⟩
  | setBudget b =>
    by_cases hg : 0 < b
    · simp only [step, if_pos hg]; exact ⟨h5, hlen⟩
    · simp only [step, if_neg hg]; exact ⟨h5, hlen⟩
  | setCategoryBudget c b =>
    by_cases hg : c ∈ s.categories ∧ 0 < b
    · simp only [step, if_pos hg]; exact ⟨h5, hlen⟩
    · simp only [step, if_neg hg]; exact ⟨h5, hlen⟩
  | setBudgetInterval i =>
    by_cases hg : i ∈ budget_intervals
    · simp only [step, if_pos hg]; exact ⟨h5, hlen⟩
    · simp only [step, if_neg hg]; exact ⟨h5, hlen⟩
  | clearAllData conf => exact histInv_clear conf s ⟨h5, hlen⟩

lemma histInv_foldl (ops : List Op) :
    ∀ s, histInv s → histInv (ops.foldl (fun s o => step o s) s) := by
  induction ops with
  | nil => exact fun s hs => hs
  | cons o rest ih => exact fun s hs => ih _ (histInv_step o s hs)

lemma histInv_reach (ops : List Op) : histInv (reach ops) :=
  histInv_foldl ops initial_state ⟨rfl, by decide⟩

/-- C3: in every state reachable from the default initial state the
transaction history never exceeds the bound `history_length = 5`, a push
below the bound plainly appends, and a push at the bound evicts the list
head (the oldest entry) and appends the new entry at the tail (FIFO). -/
theorem transaction_history_bounded_fifo :
    (∀ ops : List Op, (reach ops).history_length = 5 ∧
        (reach ops).transaction_history.length ≤ 5) ∧
    (∀ (ops : List Op) (t : Transaction),
        (reach ops).transaction_history.length < 5 →
        pushTransaction (reach ops).history_length (reach ops).transaction_history t
          = (reach ops).transaction_history ++ [t]) ∧
    (∀ (ops : List Op) (t : Transaction),
        (reach ops).transaction_history.length = 5 →
        pushTransaction (reach ops).history_length (reach ops).transaction_history t
          = (reach ops).transaction_history.tail ++ [t]) := by
  refine ⟨fun ops => histInv_reach ops, fun ops t hlt => ?_, fun ops t heq => ?_⟩
  · have h5 := (histInv_reach ops).1
    rw [h5]
    simp only [pushTransaction]
    rw [if_neg]
    simp only [List.length_append, List.length_singleton]
    omega
  · have h5 := (histInv_reach ops).1
    have hne : (reach ops).transaction_history ≠ [] := by
      intro h0
      rw [h0] at heq
      simp at heq
    rw [h5]
    simp only [pushTransaction]
    rw [if_pos, tail_append_singleton _ _ hne]
    simp only [List.length_append, List.length_singleton]
    omega

/-- C3 witness: the theorem applied to a concrete empty history, a concrete
full history and a concrete pushed transaction. -/
theorem transaction_history_bounded_fifo_witness :
    ((reach opsW5).history_length = 5 ∧ (reach opsW5).transaction_history.length ≤ 5) ∧
    pushTransaction (reach []).history_length (reach []).transaction_history tW
      = (reach []).transaction_history ++ [tW] ∧
    pushTransaction (reach opsW5).history_length (reach opsW5).transaction_history tW
      = (reach opsW5).transaction_history.tail ++ [tW] :=
  ⟨transaction_history_bounded_fifo.1 opsW5,
   transaction_history_bounded_fifo.2.1 [] tW (by decide),
   transaction_history_bounded_fifo.2.2 opsW5 tW (by decide)⟩

@[simp] lemma dictKeys_nil : dictKeys [] = [] := rfl

@[simp] lemma dictKeys_cons (p : String × ℚ) (d : List (String × ℚ)) :
    dictKeys (p :: d) = p.1 :: dictKeys d := rfl

lemma mem_dictKeys_dictSet {d : List (String × ℚ)} {k k2 : String} {v : ℚ}
    (h : k2 ∈ dictKeys (dictSet d k v)) : k2 = k ∨ k2 ∈ dictKeys d := by
  induction d with
  | nil => simp [dictSet] at h; exact Or.inl h
  | cons p rest ih =>
    by_cases hp : p.1 = k
    · simp only [dictSet, if_pos hp, dictKeys_cons, List.mem_cons] at h
      rcases h with h | h
      · exact Or.inl h
      · exact Or.inr (List.mem_cons_of_mem _ h)
    · simp only [dictSet, if_neg hp, dictKeys_cons, List.mem_cons] at h
      rcases h with h | h
      · exact Or.inr (h ▸ List.mem_cons_self _ _)
      · rcases ih h with h2 | h2
        · exact Or.inl h2
        · exact Or.inr (List.mem_cons_of_mem _ h2)

lemma nodup_dictKeys_dictSet {d : List (String × ℚ)} {k : String} {v : ℚ}
    (h : (dictKeys d).Nodup) : (dictKeys (dictSet d k v)).Nodup := by
  induction d with
  | nil => simp [dictSet]
  | cons p rest ih =>
    simp only [dictKeys_cons, List.nodup_cons] at h
    obtain ⟨hp, hrest⟩ := h
    by_cases hpk : p.1 = k
    · simp only [dictSet, if_pos hpk, dictKeys_cons, List.nodup_cons]
      exact ⟨hpk ▸ hp, hrest⟩
    · simp only [dictSet, if_neg hpk, dictKeys_cons, List.nodup_cons]
      refine ⟨fun hmem => ?_, ih hrest⟩
      rcases mem_dictKeys_dictSet hmem with h1 | h1
      · exact hpk h1
      · exact hp h1

lemma mem_dictKeys_of_mem_dictRemove {d : List (String × ℚ)} {k k2 : String}
    (h : k2 ∈ dictKeys (dictRemove d k)) : k2 ∈ dictKeys d := by
  induction d with
  | nil => simp [dictRemove] at h
  | cons p rest ih =>
    by_cases hp : p.1 = k
    · simp only [dictRemove, if_pos hp] at h
      exact List.mem_cons_of_mem _ h
    · simp only [dictRemove, if_neg hp, dictKeys_cons, List.mem_cons] at h ⊢
      rcases h with h | h
      · exact Or.inl h
      · exact Or.inr (ih h)

lemma not_mem_dictKeys_dictRemove {d : List (String × ℚ)} {k : String}
    (hnd : (dictKeys d).Nodup) : k ∉ dictKeys (dictRemove d k) := by
  induction d with
  | nil => simp [dictRemove]
  | cons p rest ih =>
    simp only [dictKeys_cons, List.nodup_cons] at hnd
    obtain ⟨hp, hrest⟩ := hnd
    by_cases hpk : p.1 = k
    · simp only [dictRemove, if_pos hpk]
      exact hpk ▸ hp
    · simp only [dictRemove, if_neg hpk, dictKeys_cons, List.mem_cons]
      push_neg
      exact ⟨fun h => hpk h.symm, ih hrest⟩

lemma nodup_dictKeys_dictRemove {d : List (String × ℚ)} {k : String}
    (hnd : (dictKeys d).Nodup) : (dictKeys (dictRemove d k)).Nodup := by
  induction d with
  | nil => simp [dictRemove]
  | cons p rest ih =>
    simp only [dictKeys_cons, List.nodup_cons] at hnd
    obtain ⟨hp, hrest⟩ := hnd
    by_cases hpk : p.1 = k
    · simp only [dictRemove, if_pos hpk]
      exact hrest
    · simp only [dictRemove, if_neg hpk, dictKeys_cons, List.nodup_cons]
      exact ⟨fun h => hp (mem_dictKeys_of_mem_dictRemove h), ih hrest⟩

lemma budgetKeysInv_clear (conf : String) (s : State) (hs : budgetKeysInv s) :
    budgetKeysInv (clear_all_data [conf] s).1 := by
  by_cases hy : lowerStr conf = "yes"
  · simp only [clear_all_data, if_pos hy]
    exact ⟨by simp, by simp⟩
  · by_cases hn : lowerStr conf = "no"
    · simp only [clear_all_data, if_neg hy, if_pos hn]
      exact hs
    · simp only [clear_all_data, if_neg hy, if_neg hn]
      exact hs

lemma budgetKeysInv_step (o : Op) (s : State) (hs : budgetKeysInv s) :
    budgetKeysInv (step o s) := by
  obtain ⟨hnd, hsub⟩ := hs
  cases o with
  | addExpense d c a =>
    by_cases hg : 0 < a ∧ c ∈ s.categories
    · simp only [step, if_pos hg]; exact ⟨hnd, hsub⟩
    · simp only [step, if_neg hg]; exact ⟨hnd, hsub⟩
  | addMoney now a =>
    by_cases hg : 0 < a
    · simp only [step, if_pos hg]; exact ⟨hnd, hsub⟩
    · simp only [step, if_neg hg]; exact ⟨hnd, hsub⟩
  | addCategory n =>
    by_cases hg : n ≠ "" ∧ n ∉ s.categories
    · simp only [step, if_pos hg]
      refine ⟨nodup_dictKeys_dictSet hnd, fun k hk => ?_⟩
      rcases mem_dictKeys_dictSet hk with h1 | h1
      · exact List.mem_append_right _ (h1 ▸ List.mem_singleton_self n)
      · exact List.mem_append_left _ (hsub k h1)
    · simp only [step, if_neg hg]; exact ⟨hnd, hsub⟩
  | deleteCategory n =>
    by_cases hg : n ≠ "" ∧ n ∈ s.categories
    · simp only [step, if_pos hg]
      refine ⟨nodup_dictKeys_dictRemove hnd, fun k hk => ?_⟩
      have hkne : k ≠ n := by
        intro hkn
        exact not_mem_dictKeys_dictRemove hnd (hkn ▸ hk)
      exact (List.mem_erase_of_ne hkne).mpr (hsub k (mem_dictKeys_of_mem_dictRemove hk))
    · simp only [step, if_neg hg]; exact ⟨hnd, hsub⟩
  | setBudget b =>
    by_cases hg : 0 < b
    · simp only [step, if_pos hg]; exact ⟨hnd, hsub⟩
    · simp only [step, if_neg hg]; exact ⟨hnd, hsub⟩
  | setCategoryBudget c b =>
    by_cases hg : c ∈ s.categories ∧ 0 < b
    · simp only [step, if_pos hg]
      refine ⟨nodup_dictKeys_dictSet hnd, fun k hk => ?_⟩
      rcases mem_dictKeys_dictSet hk with h1 | h1
      · exact h1 ▸ hg.1
      · exact hsub k h1
    · simp only [step, if_neg hg]; exact ⟨hnd, hsub⟩
  | setBudgetInterval i =>
    by_cases hg : i ∈ budget_intervals
    · simp only [step, if_pos hg]; exact ⟨hnd, hsub⟩
    · simp only [step, if_neg hg]; exact ⟨hnd, hsub⟩
  | clearAllData conf => exact budgetKeysInv_clear conf s ⟨hnd, hsub⟩

lemma budgetKeysInv_foldl (ops : List Op) :
    ∀ s, budgetKeysInv s → budgetKeysInv (ops.foldl (fun s o => step o s) s) := by
  induction ops with
  | nil => exact fun s hs => hs
  | cons o rest ih => exact fun s hs => ih _ (budgetKeysInv_step o s hs)

lemma budgetKeysInv_reach (ops : List Op) : budgetKeysInv (reach ops) :=
  budgetKeysInv_foldl ops initial_state ⟨by decide, by decide⟩

/-- C9: in every state reachable from the default initial state by the
operations (initialization included), the key set of the category-budget
dict is a subset of the category list. -/
theorem category_budgets_keys_subset (ops : List Op) :
    ∀ k ∈ dictKeys (reach ops).category_budgets, k ∈ (reach ops).categories :=
  (budgetKeysInv_reach ops).2

/-- C9 witness: the theorem applied after concretely adding one category. -/
theorem category_budgets_keys_subset_witness :
    "Gym" ∈ (reach [Op.addCategory "Gym"]).categories :=
  category_budgets_keys_subset [Op.addCategory "Gym"] "Gym" (by decide)

lemma dictGetD_dictSet (d : List (String × ℚ)) (k k2 : String) (v v0 : ℚ) :
    dictGetD (dictSet d k v) k2 v0 = if k = k2 then v else dictGetD d k2 v0 := by
  induction d with
  | nil => simp [dictSet, dictGetD]
  | cons p rest ih =>
    by_cases hp : p.1 = k
    · simp only [dictSet, if_pos hp, dictGetD]
      by_cases hk2 : k = k2
      · simp [hk2]
      · simp [hk2, hp ▸ hk2]
    · simp only [dictSet, if_neg hp, dictGetD, ih]
      by_cases hpk2 : p.1 = k2
      · simp [hpk2, if_neg (hpk2 ▸ hp ∘ Eq.symm)]
      · simp [hpk2]

lemma sum_foldl (l : List Expense) (q : ℚ) :
    l.foldl (fun a e => a + e.amount) q = q + (l.map Expense.amount).sum := by
  induction l generalizing q with
  | nil => simp
  | cons e l ih => simp [ih, add_assoc]

lemma catStep_foldl_getD (l : List Expense) (d : List (String × ℚ)) (c : String) :
    dictGetD (l.foldl catStep d) c 0
      = dictGetD d c 0 + ((l.filter (fun e => e.category == c)).map Expense.amount).sum := by
  induction l generalizing d with
  | nil => simp
  | cons e l ih =>
    rw [List.foldl_cons, ih]
    by_cases hc : e.category = c
    · simp [catStep, dictGetD_dictSet, List.filter_cons, hc, add_assoc]
    · simp [catStep, dictGetD_dictSet, List.filter_cons, beq_iff_eq, hc]

lemma summaryStep_foldl (l : List Expense) (q : ℚ) (d : List (String × ℚ)) :
    l.foldl summaryStep (q, d) = (l.foldl (fun a e => a + e.amount) q, l.foldl catStep d) := by
  induction l generalizing q d with
  | nil => rfl
  | cons e l ih => simp [List.foldl_cons, summaryStep, ih]

lemma update_summary_spec (es : List Expense) (h : es ≠ []) :
    ∃ rep, update_summary es = some rep ∧
      rep.total = (es.map Expense.amount).sum ∧
      ∀ c, dictGetD rep.categoryTotals c 0
        = ((es.filter (fun e => e.category == c)).map Expense.amount).sum := by
  have hperm : (sortExpenses es).Perm es := List.mergeSort_perm es _
  have hne : es.isEmpty = false := by
    cases es with
    | nil => exact absurd rfl h
    | cons a l => rfl
  refine ⟨⟨sortExpenses es, ((sortExpenses es).foldl summaryStep (0, [])).2,
          ((sortExpenses es).foldl summaryStep (0, [])).1⟩, ?_, ?_, ?_⟩
  · simp [update_summary, hne]
  · simp only [summaryStep_foldl, sum_foldl, zero_add]
    exact (hperm.map Expense.amount).sum_eq
  · intro c
    simp only [summaryStep_foldl, catStep_foldl_getD]
    rw [show dictGetD [] c 0 = 0 from rfl, zero_add]
    exact ((hperm.filter _).map Expense.amount).sum_eq

/-- C4: for a nonempty expense list, `update_summary` reports a grand total
equal to the sum of all recorded amounts and per-category totals equal to
the sum for that category, and both figures are invariant under permutation of
the insertion order. -/
theorem summary_totals (es : List Expense) (h : es ≠ []) :
    ∃ rep, update_summary es = some rep ∧
      rep.total = (es.map Expense.amount).sum ∧
      (∀ c, dictGetD rep.categoryTotals c 0
        = ((es.filter (fun e => e.category == c)).map Expense.amount).sum) ∧
      ∀ es2 : List Expense, es.Perm es2 →
        ∃ rep2, update_summary es2 = some rep2 ∧ rep2.total = rep.total ∧
          ∀ c, dictGetD rep2.categoryTotals c 0 = dictGetD rep.categoryTotals c 0 := by
  obtain ⟨rep, hs, ht, hc⟩ := update_summary_spec es h
  refine ⟨rep, hs, ht, hc, fun es2 hperm => ?_⟩
  have h2 : es2 ≠ [] := by
    intro h0
    subst h0
    exact h hperm.eq_nil
  obtain ⟨rep2, hs2, ht2, hc2⟩ := update_summary_spec es2 h2
  refine ⟨rep2, hs2, ?_, fun c => ?_⟩
  · rw [ht2, ht]
    exact ((hperm.map Expense.amount).sum_eq).symm
  · rw [hc2 c, hc c]
    exact (((hperm.filter _).map Expense.amount).sum_eq).symm

/-- C4 witness: the theorem applied to a concrete two-expense list. -/
theorem summary_totals_witness :
    ∃ rep, update_summary esW = some rep ∧
      rep.total = (esW.map Expense.amount).sum ∧
      (∀ c, dictGetD rep.categoryTotals c 0
        = ((esW.filter (fun e => e.category == c)).map Expense.amount).sum) ∧
      ∀ es2 : List Expense, esW.Perm es2 →
        ∃ rep2, update_summary es2 = some rep2 ∧ rep2.total = rep.total ∧
          ∀ c, dictGetD rep2.categoryTotals c 0 = dictGetD rep.categoryTotals c 0 :=
  summary_totals esW (by decide)

lemma dictLookup_eq_none_iff (d : List (String × ℚ)) (k : String) :
    dictLookup d k = none ↔ k ∉ dictKeys d := by
  induction d with
  | nil => simp [dictLookup]
  | cons p rest ih =>
    by_cases hp : p.1 = k
    · simp [dictLookup, hp]
    · simp only [dictLookup, if_neg hp, ih, dictKeys_cons, List.mem_cons]
      constructor
      · intro hnot h1
        rcases h1 with h1 | h1
        · exact hp h1.symm
        · exact hnot h1
      · intro hnot h1
        exact hnot (Or.inr h1)

lemma dictLookup_dictRemove_self {d : List (String × ℚ)} {k : String}
    (hnd : (dictKeys d).Nodup) : dictLookup (dictRemove d k) k = none :=
  (dictLookup_eq_none_iff _ _).mpr (not_mem_dictKeys_dictRemove hnd)

lemma dictLookup_dictRemove_ne {d : List (String × ℚ)} {k k2 : String}
    (hne : k2 ≠ k) : dictLookup (dictRemove d k) k2 = dictLookup d k2 := by
  induction d with
  | nil => rfl
  | cons p rest ih =>
    by_cases hp : p.1 = k
    · have h12 : ¬p.1 = k2 := fun h => hne (by rw [← h, hp])
      simp [dictRemove, hp, dictLookup, h12, Ne.symm hne]
    · simp only [dictRemove, if_neg hp, dictLookup, ih]

/-- C8: deleting an existing category removes it from the category list and
from the category-budget dict, leaves every other budget entry and all
recorded expenses untouched, and the subsequent summary/status computations
over the now-orphaned expense records still produce their reports: the
summary total still counts every expense and the status spend dict still
carries the total for the orphaned category (computed with `dict.get`, so no
lookup can fail). -/
theorem delete_category_safe (s : State) (c : String) (hc : c ∈ s.categories)
    (hne : c ≠ "") (hnd : (dictKeys s.category_budgets).Nodup) :
    (step (Op.deleteCategory c) s).categories = s.categories.erase c ∧
    dictLookup (step (Op.deleteCategory c) s).category_budgets c = none ∧
    (∀ k, k ≠ c → dictLookup (step (Op.deleteCategory c) s).category_budgets k
        = dictLookup s.category_budgets k) ∧
    (step (Op.deleteCategory c) s).expenses = s.expenses ∧
    (s.expenses ≠ [] → ∃ rep,
        update_summary (step (Op.deleteCategory c) s).expenses = some rep ∧
        rep.total = (s.expenses.map Expense.amount).sum) ∧
    dictGetD (category_expenses (step (Op.deleteCategory c) s).expenses) c 0
      = ((s.expenses.filter (fun e => e.category == c)).map Expense.amount).sum := by
  have hstep : step (Op.deleteCategory c) s = delete_category s c := by
    simp [step, hne, hc]
  rw [hstep]
  refine ⟨rfl, dictLookup_dictRemove_self hnd, fun k hk => dictLookup_dictRemove_ne hk,
    rfl, ?_, ?_⟩
  · intro hexp
    obtain ⟨rep, hs1, ht, _⟩ := update_summary_spec s.expenses hexp
    exact ⟨rep, hs1, ht⟩
  · have hexp : (delete_category s c).expenses = s.expenses := rfl
    rw [hexp, category_expenses]
    simpa [dictGetD] using catStep_foldl_getD s.expenses [] c

/-- C8 witness: the theorem applied to the concrete state `sW8`. -/
theorem delete_category_safe_witness :
    (step (Op.deleteCategory "Food") sW8).categories = sW8.categories.erase "Food" ∧
    dictLookup (step (Op.deleteCategory "Food") sW8).category_budgets "Food" = none ∧
    (∀ k, k ≠ "Food" → dictLookup (step (Op.deleteCategory "Food") sW8).category_budgets k
        = dictLookup sW8.category_budgets k) ∧
    (step (Op.deleteCategory "Food") sW8).expenses = sW8.expenses ∧
    (sW8.expenses ≠ [] → ∃ rep,
        update_summary (step (Op.deleteCategory "Food") sW8).expenses = some rep ∧
        rep.total = (sW8.expenses.map Expense.amount).sum) ∧
    dictGetD (category_expenses (step (Op.deleteCategory "Food") sW8).expenses) "Food" 0
      = ((sW8.expenses.filter (fun e => e.category == "Food")).map Expense.amount).sum :=
  delete_category_safe sW8 "Food" (by decide) (by decide) (by decide)

/-- C5 counterexample: with the current time 2024-05-15 12:00:00 and one
$40 expense dated 2024-05-01 00:00:00 (inside the current month), the code
computes $0 spend for the Month interval, not the $40 that summing over
`[start of the current month, now]` gives — because
`now.replace(day := 1)` keeps the time of day 12:00:00. -/
theorem display_status_month_window_counterexample :
    intervalSpend sCex nowCex = some 0 ∧
    windowSum (claimIntervalStart "Month" nowCex) nowCex sCex.expenses = 40 ∧
    intervalSpend sCex nowCex
      ≠ some (windowSum (claimIntervalStart "Month" nowCex) nowCex sCex.expenses) := by
  have h1 : intervalSpend sCex nowCex = some 0 := by decide
  have h2 : windowSum (claimIntervalStart "Month" nowCex) nowCex sCex.expenses = 40 := by
    have hfil : sCex.expenses.filter
        (fun e => dtLe (claimIntervalStart "Month" nowCex) e.date && dtLe e.date nowCex)
        = sCex.expenses := by decide
    simp only [windowSum, hfil]
    norm_num [sCex]
  refine ⟨h1, h2, ?_⟩
  rw [h1, h2]
  norm_num

lemma biweekly_days_eq (n : Nat) :
    (if ((n : Int) - 719472) / 7 % 2 ≠ 0 then (n + 2) % 7 + 7 else (n + 2) % 7)
      = (n + 2) % 14 := by
  split <;> omega

lemma biweekly_start_eq (now : DT) :
    biweekly_start now
      = day_start (dateMinusDays now ((daysN now.year now.month now.day + 2) % 14)) := by
  have h : (if daysSinceRefMonday now / 7 % 2 ≠ 0 then pyWeekday now + 7 else pyWeekday now)
      = (daysN now.year now.month now.day + 2) % 14 := by
    unfold pyWeekday daysSinceRefMonday
    exact biweekly_days_eq _
  simp only [biweekly_start]
  rw [h]

/-- C5 amended: for a positive budget and any of the five interval
settings, `display_status` reports spend-to-date as the sum of exactly the
expenses dated in the closed window `[interval_start, now]` and reports
`remaining = budget - spend`, where `interval_start` is the midnight start
of the current day, week, or bi-weekly period (anchored to the reference
Monday 1970-01-05), but for Month and Year is the first day of the current
month resp. year at the time of day of `now` (not midnight); in particular,
with budget 100, interval Month and one $40 expense dated inside that
month window, it reports $40.00 spent and $60.00 remaining. -/
theorem display_status_interval_amended :
    (∀ (s : State) (now : DT), s.budget_interval ∈ budget_intervals → 0 < s.budget →
        display_budget_section s now
          = some (windowSum (amendedIntervalStart s.budget_interval now) now s.expenses,
              s.budget - windowSum (amendedIntervalStart s.budget_interval now) now s.expenses)) ∧
    (∀ (s : State) (now d : DT) (cat : String),
        s.budget = 100 → s.budget_interval = "Month" → s.expenses = [⟨d, cat, 40⟩] →
        dtLe (amendedIntervalStart "Month" now) d = true → dtLe d now = true →
        display_budget_section s now = some (40, 60)) := by
  constructor
  · intro s now hmem hb
    simp only [budget_intervals, List.mem_cons, List.not_mem_nil, or_false] at hmem
    rcases hmem with h | h | h | h | h
    all_goals
      simp only [display_budget_section, intervalSpend, h, if_pos hb]
    · rw [if_neg (by decide), if_neg (by decide), if_pos (by decide)]
      simp [amendedIntervalStart, day_start]
    · rw [if_neg (by decide), if_neg (by decide), if_neg (by decide), if_pos (by decide)]
      simp [amendedIntervalStart, week_start]
    · rw [if_neg (by decide), if_neg (by decide), if_neg (by decide), if_neg (by decide),
        if_pos (by decide)]
      rw [biweekly_start_eq]
      simp [amendedIntervalStart]
    · rw [if_pos (by decide)]
      simp [amendedIntervalStart, month_start]
    · rw [if_neg (by decide), if_pos (by decide)]
      simp [amendedIntervalStart, year_start]
  · intro s now d cat h100 hM hexp h1 h2
    have h1m : dtLe (month_start now) d = true := h1
    simp only [display_budget_section, intervalSpend, hM, hexp, h100]
    rw [if_pos (show (0:ℚ) < 100 by norm_num)]
    rw [if_pos (show lowerStr "Month" = "month" from rfl)]
    simp only [Option.map_some, windowSum, List.filter, h1m, h2, Bool.and_self,
      List.map_cons, List.map_nil, List.sum_cons, List.sum_nil]
    norm_num

/-- C5 witness: the amended theorem applied to concrete states: the general
window equation at `sCex` (whose 2024-05-01 00:00 expense the Month window
excludes) and the scenario instance at `sW5` reporting $40/$60. -/
theorem display_status_interval_amended_witness :
    display_budget_section sCex nowCex
      = some (windowSum (amendedIntervalStart sCex.budget_interval nowCex) nowCex sCex.expenses,
          sCex.budget
            - windowSum (amendedIntervalStart sCex.budget_interval nowCex) nowCex sCex.expenses) ∧
    display_budget_section sW5 nowCex = some (40, 60) :=
  ⟨display_status_interval_amended.1 sCex nowCex (by decide) (by decide),
   display_status_interval_amended.2 sW5 nowCex dW5 "Food" rfl rfl rfl (by decide) (by decide)⟩

end Spend
